import Mathlib

/-!
Verification of the predicate library in `src/Validator.py` (ygisantos/Python-Validations).

Each Python predicate is shallowly embedded as a Lean function.  Python strings are
modelled as Lean `String`s (sequences of unicode code points, accessed through
`String.data`); where a CPython library routine is sensitive to non-ASCII input in a
way the model does not reproduce, the corresponding theorem carries an explicit
ASCII hypothesis.  Fallible Python operations are modelled with `Except PyErr`, and a
bare `try/except` from the source becomes an explicit handler on that `Except`.
-/

namespace Validator

/-- Python exception classes relevant to `Validator.py`: every error raised by the
library calls modelled here is either a `ValueError` (including the subclasses
`binascii.Error`, `json.JSONDecodeError`, `ipaddress.AddressValueError`,
`UnicodeEncodeError`) or a `TypeError`. -/
inductive PyErr where
  | valueError
  | typeError
deriving DecidableEq, Repr

/-- Dynamic Python values, restricted to the shapes the claims exercise: integers,
finite floats (idealised as rationals), strings, lists, and `None`. -/
inductive PyValue where
  | int (n : ℤ)
  | float (q : ℚ)
  | str (s : String)
  | list (xs : List PyValue)
  | none

/-- `Except` success test (Python: the call returned instead of raising). -/
def exOk : Except PyErr α → Bool
  | .ok _ => true
  | .error _ => false

/-- Python `==` on the modelled values: numbers compare by value across
`int`/`float`, strings and `None` compare structurally, lists compare elementwise;
values of otherwise different types are unequal. -/
def pyEq : PyValue → PyValue → Bool
  | .int m, .int n => m == n
  | .int m, .float q => (m : ℚ) == q
  | .float q, .int n => q == (n : ℚ)
  | .float p, .float q => p == q
  | .str a, .str b => a == b
  | .none, .none => true
  | .list [], .list [] => true
  | .list (x :: xs), .list (y :: ys) => pyEq x y && pyEq (.list xs) (.list ys)
  | _, _ => false

/-- Python `<` on the modelled values; comparing values without a defined order
raises a `TypeError`.  Lists compare lexicographically: equal heads are skipped,
the first unequal pair decides (and may itself raise). -/
def pyLt : PyValue → PyValue → Except PyErr Bool
  | .int m, .int n => .ok (decide (m < n))
  | .int m, .float q => .ok (decide ((m : ℚ) < q))
  | .float q, .int n => .ok (decide (q < (n : ℚ)))
  | .float p, .float q => .ok (decide (p < q))
  | .str a, .str b => .ok (decide (a < b))
  | .list [], .list [] => .ok false
  | .list [], .list (_ :: _) => .ok true
  | .list (_ :: _), .list [] => .ok false
  | .list (x :: xs), .list (y :: ys) =>
      if pyEq x y then pyLt (.list xs) (.list ys) else pyLt x y
  | _, _ => .error .typeError

/-- Python `<=` on the modelled values (same ordering rules as `pyLt`). -/
def pyLe : PyValue → PyValue → Except PyErr Bool
  | .int m, .int n => .ok (decide (m ≤ n))
  | .int m, .float q => .ok (decide ((m : ℚ) ≤ q))
  | .float q, .int n => .ok (decide (q ≤ (n : ℚ)))
  | .float p, .float q => .ok (decide (p ≤ q))
  | .str a, .str b => .ok (decide (a ≤ b))
  | .list [], .list _ => .ok true
  | .list (_ :: _), .list [] => .ok false
  | .list (x :: xs), .list (y :: ys) =>
      if pyEq x y then pyLe (.list xs) (.list ys) else pyLt x y
  | _, _ => .error .typeError

/-- `in_range(value, min_val, max_val)` from the source:
`return min_val <= value <= max_val`.  Python's chained comparison evaluates
`min_val <= value` first and only evaluates `value <= max_val` when the first
comparison is true; a `TypeError` from either comparison propagates. -/
def in_range (value min_val max_val : PyValue) : Except PyErr Bool := do
  let b ← pyLe min_val value
  if b then pyLe value max_val else pure false

/-- `min_length(value, min_len)` from the source: `len(str(value)) >= min_len`,
stated on the value's string form. -/
def min_length (s : String) (min_len : ℤ) : Bool :=
  decide ((s.data.length : ℤ) ≥ min_len)

/-- `max_length(value, max_len)` from the source: `len(str(value)) <= max_len`,
stated on the value's string form. -/
def max_length (s : String) (max_len : ℤ) : Bool :=
  decide ((s.data.length : ℤ) ≤ max_len)

/-- `exact_length(value, length)` from the source: `len(str(value)) == length`,
stated on the value's string form. -/
def exact_length (s : String) (length : ℤ) : Bool :=
  decide ((s.data.length : ℤ) = length)

/-- Does the first list occur as a leading segment of the second? -/
def charsBegins : List Char → List Char → Bool
  | [], _ => true
  | _ :: _, [] => false
  | a :: as, b :: bs => a == b && charsBegins as bs

/-- Python substring membership `needle in hay` for strings. -/
def charsIn (needle : List Char) : List Char → Bool
  | [] => charsBegins needle []
  | c :: rest => charsBegins needle (c :: rest) || charsIn needle rest

/-- Shared semantics of Python's membership test `x in c` (CPython's
`PySequence_Contains`): defined for list containers (elementwise `==`) and string
containers (substring test, requiring a string left operand); membership in the
other modelled values raises a `TypeError`. -/
def pyContains : PyValue → PyValue → Except PyErr Bool
  | .list l, v => .ok (l.any fun e => pyEq e v)
  | .str t, v =>
      match v with
      | .str sub => .ok (charsIn sub.data t.data)
      | _ => .error .typeError
  | _, _ => .error .typeError

/-- `is_in(value, collection)` from the source: `value in collection`. -/
def is_in (value collection : PyValue) : Except PyErr Bool :=
  pyContains collection value

/-- `not_in(value, collection)` from the source: `value not in collection`;
Python's `not in` performs the same membership test and negates its result. -/
def not_in (value collection : PyValue) : Except PyErr Bool :=
  (pyContains collection value).map (fun b => !b)

/-- `all_in_list(values, lst)` from the source:
`isinstance(lst, list) and all(v in lst for v in values)`. -/
def all_in_list (values : List PyValue) : PyValue → Bool
  | .list l => values.all fun v => l.any fun e => pyEq e v
  | _ => false

/-- `any_in_list(values, lst)` from the source:
`isinstance(lst, list) and any(v in lst for v in values)`. -/
def any_in_list (values : List PyValue) : PyValue → Bool
  | .list l => values.any fun v => l.any fun e => pyEq e v
  | _ => false

/-- `none_in_list(values, lst)` from the source:
`isinstance(lst, list) and not any(v in lst for v in values)`. -/
def none_in_list (values : List PyValue) : PyValue → Bool
  | .list l => !(values.any fun v => l.any fun e => pyEq e v)
  | _ => false

/-- Is the value a Python `list` (`isinstance(lst, list)`)? -/
def isListV : PyValue → Bool
  | .list _ => true
  | _ => false

/-- ASCII code point test. -/
def asciiChar (c : Char) : Bool := c.toNat < 128

/-- All characters of the string are ASCII. -/
def asciiStr (s : String) : Bool := s.data.all asciiChar

/-- ASCII restriction lifted to values: only the string payload matters (the
library routines below never look inside lists). -/
def asciiVal : PyValue → Bool
  | .str s => asciiStr s
  | _ => true

/-- The characters matched by `\s` in an ASCII-only string (the source's
cleaning patterns also strip non-ASCII unicode whitespace, which is outside the
modelled fragment). -/
def pyWs (c : Char) : Bool :=
  c = ' ' || c = '\t' || c = '\n' || c = '\r' || c = '\x0b' || c = '\x0c'

/-- `re.sub(r'[\s\-]', '', …)` from `is_credit_card`: drop whitespace and hyphens. -/
def cleanCard (l : List Char) : List Char :=
  l.filter fun c => !(pyWs c || c = '-')

/-- Superscript digit characters: `str.isdigit` accepts them ("digits that need
special handling, such as the compatibility superscript digits") while `int()`
rejects them with a `ValueError`.  Partial model: other non-decimal unicode
digit characters exist but are not needed here. -/
def superscriptDigit (c : Char) : Bool :=
  c = '⁰' || c = '¹' || c = '²' || c = '³' || c = '⁴' ||
  c = '⁵' || c = '⁶' || c = '⁷' || c = '⁸' || c = '⁹'

/-- Per-character model of Python `str.isdigit`: ASCII decimal digits together
with the superscript digits.  (Other unicode decimal digits, e.g. Arabic-Indic,
also satisfy `str.isdigit` but lie outside the modelled fragment; theorems that
depend on this function carry an ASCII hypothesis or use superscript inputs.) -/
def py_isdigit (c : Char) : Bool := c.isDigit || superscriptDigit c

/-- Python `str.isdigit()` on a whole string: nonempty and all characters digits. -/
def pyIsdigitList (l : List Char) : Bool := !l.isEmpty && l.all py_isdigit

/-- `int(d)` for a single character `d`: the decimal value for `'0'`–`'9'`,
a `ValueError` otherwise (in particular for the superscript digits, which
`str.isdigit` accepts but `int()` rejects). -/
def int_of_digit_char (c : Char) : Except PyErr ℕ :=
  if c.isDigit then .ok (c.toNat - 48) else .error .valueError

/-- `[int(d) for d in card_num]`: the first failing conversion raises. -/
def charDigitsToInts : List Char → Except PyErr (List ℕ)
  | [] => .ok []
  | c :: l => do
      let d ← int_of_digit_char c
      let ds ← charDigitsToInts l
      .ok (d :: ds)

/-- The doubled-and-adjusted digit of the Luhn algorithm
(`digits[i] *= 2; if digits[i] > 9: digits[i] -= 9`). -/
def dbl (d : ℕ) : ℕ := if 9 < d * 2 then d * 2 - 9 else d * 2

/-- Sum of the digit list where doubling alternates position by position; the
head is doubled iff the flag is set. -/
def luhnSumFrom : List ℕ → Bool → ℕ
  | [], _ => 0
  | d :: rest, b => (if b then dbl d else d) + luhnSumFrom rest (!b)

/-- `luhn_check` from the source.  The loop `for i in range(len(digits) - 2, -1, -2)`
doubles (and adjusts) the digits at indices `len-2, len-4, …`, i.e. exactly the
indices of the same parity as `len`; so index 0 is doubled iff `len` is even and
the doubled positions alternate from there. -/
def luhn_check (digits : List ℕ) : Bool :=
  luhnSumFrom digits (decide (digits.length % 2 = 0)) % 10 == 0

/-- `is_credit_card(value)` from the source, on the value's string form.  Note the
function body has no `try/except`: the `ValueError` from `int(d)` inside
`luhn_check` propagates to the caller. -/
def is_credit_card_checked (s : String) : Except PyErr Bool :=
  if !pyIsdigitList (cleanCard s.data) || (cleanCard s.data).length < 13 ||
      19 < (cleanCard s.data).length then .ok false
  else
    match charDigitsToInts (cleanCard s.data) with
    | .ok digits => .ok (luhn_check digits)
    | .error e => .error e

/-- The Luhn condition as the spec words it: starting from the second-to-last
digit and moving left in steps of two positions — i.e. at every index whose
distance from the last index is odd — double the digit (subtracting 9 when the
result exceeds 9), sum all digits and require divisibility by 10. -/
def luhnSpec (digits : List ℕ) : Prop :=
  (∑ i ∈ Finset.range digits.length,
      if (digits.length - 1 - i) % 2 = 1 then dbl (digits.getD i 0)
      else digits.getD i 0) % 10 = 0

instance (digits : List ℕ) : Decidable (luhnSpec digits) := by
  unfold luhnSpec; infer_instance

/-- The credit-card acceptance condition as the spec words it: after stripping
whitespace and hyphens the remainder is all decimal digits, its length lies in
13–19 inclusive, and the Luhn checksum holds. -/
def creditSpec (s : String) : Bool :=
  decide (13 ≤ (cleanCard s.data).length ∧ (cleanCard s.data).length ≤ 19 ∧
    (∀ c ∈ cleanCard s.data, c.isDigit = true) ∧
    luhnSpec ((cleanCard s.data).map fun c => c.toNat - 48))

/-- Strip ASCII whitespace from both ends (Python `int(str)` ignores surrounding
whitespace). -/
def trimWs (l : List Char) : List Char :=
  ((l.dropWhile pyWs).reverse.dropWhile pyWs).reverse

/-- Scanner for the part of an integer numeral after its first digit: a run of
digits in which each underscore must be immediately followed by a digit
(PEP 515 grouping, as accepted by `int()`). -/
def intRestScan : List Char → Bool
  | [] => true
  | '_' :: l =>
      match l with
      | c :: l' => c.isDigit && intRestScan l'
      | [] => false
  | c :: l => c.isDigit && intRestScan l

/-- Scanner for the digits of an integer numeral (after the optional sign):
a leading digit followed by `intRestScan`. -/
def intBodyScan : List Char → Bool
  | [] => false
  | c :: l => c.isDigit && intRestScan l

/-- Numeric value of a scanned numeral body (underscores are ignored). -/
def digitsVal (l : List Char) : ℕ :=
  (l.filter fun c => !(c = '_')).foldl (fun a c => a * 10 + (c.toNat - 48)) 0

/-- Remove one optional leading sign of an integer numeral. -/
def stripSign : List Char → List Char
  | '+' :: b => b
  | '-' :: b => b
  | b => b

/-- The sign contributed by an optional leading `-`. -/
def signOf : List Char → ℤ
  | '-' :: _ => -1
  | _ => 1

/-- `int()` applied to a string: strip surrounding whitespace, accept one optional
sign, then a digit run with underscore grouping; anything else raises `ValueError`. -/
def pyIntOfString (s : String) : Except PyErr ℤ :=
  let t := trimWs s.data
  if intBodyScan (stripSign t) then .ok (signOf t * digitsVal (stripSign t))
  else .error .valueError

/-- Truncation toward zero, the behaviour of `int()` on a float. -/
def pyTrunc (q : ℚ) : ℤ := if 0 ≤ q then ⌊q⌋ else ⌈q⌉

/-- Python's `int(value)` conversion on the modelled values: exact on integers,
truncating on (finite) floats, a strict parse on strings, and a `TypeError` on
`None` and lists. -/
def python_int : PyValue → Except PyErr ℤ
  | .int n => .ok n
  | .float q => .ok (pyTrunc q)
  | .str s => pyIntOfString s
  | .list _ => .error .typeError
  | .none => .error .typeError

/-- `_can_convert(value, converter)` from the source: call the converter and
report success as a boolean, swallowing the failure.  (The source catches
exactly `(ValueError, TypeError)`, which covers every error the modelled
converters produce.) -/
def can_convert (value : PyValue) (converter : PyValue → Except PyErr α) : Bool :=
  exOk (converter value)

/-- `is_integer(value)` from the source: `_can_convert(value, int)`. -/
def is_integer (value : PyValue) : Bool := can_convert value python_int

/-- Declarative form of an integer-numeral body: nonempty, first and last
characters are digits, every character is a digit or an underscore, and an
underscore is always immediately followed by a digit. -/
def intNumeral (l : List Char) : Prop :=
  l ≠ [] ∧ (l.head?.map Char.isDigit).getD false = true ∧
  (l.getLast?.map Char.isDigit).getD false = true ∧
  (∀ c ∈ l, c.isDigit = true ∨ c = '_') ∧
  l.Chain' fun a b => a = '_' → b.isDigit = true

instance (l : List Char) : Decidable (intNumeral l) := by
  unfold intNumeral; infer_instance

/-- The amended C3 condition: `int()` succeeds on every integer and finite float
(truncating), on exactly the strings that are an optionally signed decimal
numeral (underscore grouping allowed) surrounded by optional whitespace, and on
nothing else among the modelled values. -/
def amendedIntSpec : PyValue → Bool
  | .int _ => true
  | .float _ => true
  | .str s => decide (intNumeral (stripSign (trimWs s.data)))
  | .list _ => false
  | .none => false

/-- Invariant satisfied by the tail of an integer numeral after its leading digit:
only digits and underscores, every underscore immediately followed by a digit
(hence no trailing underscore). -/
def digitRun (l : List Char) : Prop :=
  (∀ c ∈ l, c.isDigit = true ∨ c = '_') ∧
  (l.Chain' fun a b => a = '_' → b.isDigit = true) ∧ l.getLast? ≠ some '_'

instance (l : List Char) : Decidable (digitRun l) := by
  unfold digitRun; infer_instance

/-- Lowercase hexadecimal digit (`[0-9a-f]`). -/
def hexLower (c : Char) : Bool := c.isDigit || ('a' ≤ c && c ≤ 'f')

/-- UUID version nibble (`[1-5]`). -/
def versionNibble (c : Char) : Bool :=
  c = '1' || c = '2' || c = '3' || c = '4' || c = '5'

/-- UUID variant nibble (`[89ab]`). -/
def variantNibble (c : Char) : Bool := c = '8' || c = '9' || c = 'a' || c = 'b'

/-- Consume exactly `n` characters satisfying `p`, returning the remainder. -/
def takeExact (p : Char → Bool) : ℕ → List Char → Option (List Char)
  | 0, l => some l
  | _ + 1, [] => none
  | n + 1, c :: l => if p c then takeExact p n l else none

/-- Consume one specific character. -/
def expectChar (c : Char) : List Char → Option (List Char)
  | [] => none
  | x :: l => if x = c then some l else none

/-- Consume one character of a class. -/
def expectClass (p : Char → Bool) : List Char → Option (List Char)
  | [] => none
  | x :: l => if p x then some l else none

/-- The end anchor `$` of a Python regex (without `re.MULTILINE`): it matches at
the end of the string or just before a newline that is the string's last
character. -/
def dollarEnd : List Char → Bool
  | [] => true
  | [c] => c = '\n'
  | _ => false

/-- Scanner for the anchored pattern of `is_uuid`:
`^[0-9a-f]{8}-[0-9a-f]{4}-[1-5][0-9a-f]{3}-[89ab][0-9a-f]{3}-[0-9a-f]{12}` —
every quantifier is fixed-length and no class contains `-`, so the regex engine's
match is this deterministic scan. -/
def uuidScan (l : List Char) : Option (List Char) :=
  (takeExact hexLower 8 l).bind fun l1 =>
  (expectChar '-' l1).bind fun l2 =>
  (takeExact hexLower 4 l2).bind fun l3 =>
  (expectChar '-' l3).bind fun l4 =>
  (expectClass versionNibble l4).bind fun l5 =>
  (takeExact hexLower 3 l5).bind fun l6 =>
  (expectChar '-' l6).bind fun l7 =>
  (expectClass variantNibble l7).bind fun l8 =>
  (takeExact hexLower 3 l8).bind fun l9 =>
  (expectChar '-' l9).bind fun l10 =>
  takeExact hexLower 12 l10

/-- Python `str.lower()` on the value's string form (ASCII case mapping; the
UUID pattern accepts only ASCII characters, and no non-ASCII character
lower-cases to an ASCII one relevant to it). -/
def toLowerStr (s : String) : List Char := s.data.map Char.toLower

/-- `is_uuid(value)` from the source:
`bool(re.match(r'^…$', str(value).lower()))`, on the value's string form. -/
def is_uuid (s : String) : Bool :=
  match uuidScan (toLowerStr s) with
  | some rest => dollarEnd rest
  | none => false

/-- The canonical 8-4-4-4-12 hyphenated lowercase-hex layout with the version
nibble restricted to 1–5 and the variant nibble to 8, 9, a, b — the layout as
the spec words it. -/
def uuidLayout (l : List Char) : Prop :=
  ∃ g1 g2 g3 g4 g5 : List Char,
    l = g1 ++ '-' :: (g2 ++ '-' :: (g3 ++ '-' :: (g4 ++ '-' :: g5))) ∧
    g1.length = 8 ∧ g2.length = 4 ∧ g3.length = 4 ∧ g4.length = 4 ∧ g5.length = 12 ∧
    (∀ c ∈ g1, hexLower c = true) ∧ (∀ c ∈ g2, hexLower c = true) ∧
    (∀ c ∈ g3, hexLower c = true) ∧ (∀ c ∈ g4, hexLower c = true) ∧
    (∀ c ∈ g5, hexLower c = true) ∧
    (∃ v t, g3 = v :: t ∧ versionNibble v = true) ∧
    (∃ w t, g4 = w :: t ∧ variantNibble w = true)

/-- Standard base64 alphabet value of a character
(`A`–`Z` ↦ 0–25, `a`–`z` ↦ 26–51, `0`–`9` ↦ 52–61, `+` ↦ 62, `/` ↦ 63). -/
def b64val (c : Char) : Option ℕ :=
  if 'A' ≤ c && c ≤ 'Z' then some (c.toNat - 65)
  else if 'a' ≤ c && c ≤ 'z' then some (c.toNat - 71)
  else if c.isDigit then some (c.toNat + 4)
  else if c = '+' then some 62
  else if c = '/' then some 63
  else none

/-- Membership in the standard base64 alphabet (padding excluded). -/
def isB64 (c : Char) : Bool := (b64val c).isSome

/-- The validation regex of `base64.b64decode(…, validate=True)`:
`re.fullmatch(b'[A-Za-z0-9+/]*={0,2}', s)` — a maximal alphabet run followed by
at most two `=`. -/
def b64RegexOk (l : List Char) : Bool :=
  l.dropWhile isB64 = [] || l.dropWhile isB64 = ['='] || l.dropWhile isB64 = ['=', '=']

/-- Bits left in the decoder's buffer after a quad position. -/
def lbOf : ℕ → ℕ
  | 0 => 0
  | 1 => 6
  | 2 => 4
  | _ => 2

/-- The decode loop of CPython's `binascii.a2b_base64` (non-strict mode).
State: input, quad position, bit buffer, buffered bit count, pads seen, output
(reversed).  Non-alphabet characters are skipped; `=` at quad position ≥ 2 with
enough accumulated padding ends the decode successfully; leftover bits when the
input ends raise the "incorrect padding" error. -/
def a2b : List Char → ℕ → ℕ → ℕ → ℕ → List ℕ → Option (List ℕ)
  | [], _, _, lb, _, acc => if lb = 0 then some acc.reverse else none
  | c :: cs, q, lc, lb, pads, acc =>
      if c = '=' then
        if 2 ≤ q then
          if 4 ≤ q + (pads + 1) then some acc.reverse
          else a2b cs q lc lb (pads + 1) acc
        else a2b cs q lc lb pads acc
      else
        match b64val c with
        | none => a2b cs q lc lb pads acc
        | some v =>
            if 8 ≤ lb + 6 then
              a2b cs ((q + 1) % 4) ((lc * 64 + v) % 2 ^ (lb + 6 - 8)) (lb + 6 - 8) pads
                (((lc * 64 + v) / 2 ^ (lb + 6 - 8)) % 256 :: acc)
            else a2b cs ((q + 1) % 4) (lc * 64 + v) (lb + 6) pads acc

/-- `base64.b64decode(s, validate=True)`: the validation regex, then the
`binascii` decoder; both failure modes raise `binascii.Error ⊂ ValueError`. -/
def b64decode_validate (l : List Char) : Except PyErr (List ℕ) :=
  if b64RegexOk l then
    match a2b l 0 0 0 0 [] with
    | some bs => .ok bs
    | none => .error .valueError
  else .error .valueError

/-- `is_base64(value)` from the source, on the value's string form: false when
the length is not a multiple of 4, otherwise `b64decode(…, validate=True)`
inside `try/except`. -/
def is_base64 (s : String) : Bool :=
  if s.data.length % 4 ≠ 0 then false
  else
    match b64decode_validate s.data with
    | .ok _ => true
    | .error _ => false

/-- Canonical-padding test of strictly valid (RFC 4648) Base64: the unused bits
before the padding must be zero — with one `=` the last data character's low 2
bits, with two `=` its low 4 bits. -/
def b64Canonical (l : List Char) : Bool :=
  if (l.dropWhile isB64).length = 0 then true
  else
    match (l.takeWhile isB64).getLast?.bind b64val with
    | some v => if (l.dropWhile isB64).length = 1 then v % 4 = 0 else v % 16 = 0
    | none => true

/-- The result values Python's `and`-chain in `is_strong_password` can produce:
a genuine boolean, `None` (a failed `re.search`), or a match object (modelled by
the index of the first matching character). -/
inductive PyRes where
  | bool (b : Bool)
  | nonePy
  | matched (pos : ℕ)
deriving DecidableEq, Repr

/-- Python truthiness of those results. -/
def pyTruthy : PyRes → Bool
  | .bool b => b
  | .nonePy => false
  | .matched _ => true

/-- Is the result an actual `bool`? -/
def isBoolRes : PyRes → Bool
  | .bool _ => true
  | _ => false

/-- Python `and`: the left operand if it is falsy, otherwise the right. -/
def pyAnd (a b : PyRes) : PyRes := if pyTruthy a then b else a

/-- `re.search` for a single-character class: a match object carrying the index
of the first matching character, or `None`. -/
def reSearchClass (p : Char → Bool) (l : List Char) : PyRes :=
  match l.findIdx? p with
  | some i => .matched i
  | none => .nonePy

/-- The fixed symbol class of `is_strong_password`. -/
def pwSymbol (c : Char) : Bool :=
  c = '!' || c = '@' || c = '#' || c = '$' || c = '%' || c = '^' || c = '&' ||
  c = '*' || c = '(' || c = ')' || c = ',' || c = '.' || c = '?' || c = '"' ||
  c = ':' || c = '\x7b' || c = '\x7d' || c = '|' || c = '<' || c = '>'

/-- `is_strong_password(value, min_len=8)` from the source, on the value's
string form: the `and`-chain of the length test and four `re.search` calls
(`[A-Z]`, `[a-z]`, `\d` — modelled for ASCII input — and the symbol class).
The returned value is the first falsy operand or the last match object; it is a
boolean only when the length test fails. -/
def is_strong_password (s : String) (min_len : ℤ) : PyRes :=
  pyAnd (pyAnd (pyAnd (pyAnd (.bool (decide ((s.data.length : ℤ) ≥ min_len)))
    (reSearchClass Char.isUpper s.data)) (reSearchClass Char.isLower s.data))
    (reSearchClass Char.isDigit s.data)) (reSearchClass pwSymbol s.data)

/-- The strength condition as the spec words it: length at least the minimum
and at least one uppercase letter, lowercase letter, digit, and symbol. -/
def strongSpec (s : String) (min_len : ℤ) : Bool :=
  decide ((s.data.length : ℤ) ≥ min_len) && s.data.any Char.isUpper &&
    s.data.any Char.isLower && s.data.any Char.isDigit && s.data.any pwSymbol

/-- The `try: … except: return False` idiom shared by the format predicates. -/
def tryFalse (x : Except PyErr Bool) : Except PyErr Bool :=
  match x with
  | .ok b => .ok b
  | .error _ => .ok false

/-- Hexadecimal digit, either case (`[0-9a-fA-F]`). -/
def hexDigit (c : Char) : Bool :=
  c.isDigit || ('a' ≤ c && c ≤ 'f') || ('A' ≤ c && c ≤ 'F')

/-- Local-part characters of the email pattern (`[a-zA-Z0-9._%+-]`). -/
def emailLocalChar (c : Char) : Bool :=
  c.isAlpha || c.isDigit || c = '.' || c = '_' || c = '%' || c = '+' || c = '-'

/-- Domain characters of the email pattern (`[a-zA-Z0-9.-]`). -/
def emailDomainChar (c : Char) : Bool :=
  c.isAlpha || c.isDigit || c = '.' || c = '-'

/-- Full match of `[a-zA-Z0-9.-]+\.[a-zA-Z]{2,}`: some `.` splits the list into
a nonempty prefix of domain characters and a suffix of at least two letters
(the regex engine backtracks over the candidate dots; trying every split is
exactly that). -/
def emailDomainOk (l : List Char) : Bool :=
  (List.range l.length).any fun i =>
    decide (0 < i) && decide (l.getD i ' ' = '.') &&
    (l.take i).all emailDomainChar && decide (i + 3 ≤ l.length) &&
    (l.drop (i + 1)).all Char.isAlpha

/-- `is_email(value)` from the source, on the value's string form:
`re.fullmatch(r'^[a-zA-Z0-9._%+-]+@[a-zA-Z0-9.-]+\.[a-zA-Z]{2,}$', …)`.
Neither character class contains `@`, so a match splits the string at its first
`@` into a nonempty local part and a matching domain. -/
def is_email (s : String) : Bool :=
  match s.data.dropWhile fun c => !(c = '@') with
  | '@' :: dom =>
      !(s.data.takeWhile fun c => !(c = '@')).isEmpty &&
      (s.data.takeWhile fun c => !(c = '@')).all emailLocalChar && emailDomainOk dom
  | _ => false

def is_email_checked (s : String) : Except PyErr Bool := .ok (is_email s)

/-- `urlsplit` removes tab, carriage-return and newline characters anywhere in
the URL before parsing. -/
def removeUnsafe (l : List Char) : List Char :=
  l.filter fun c => !(c = '\t' || c = '\r' || c = '\n')

/-- Characters allowed in a URL scheme after its leading letter. -/
def schemeChar (c : Char) : Bool := c.isAlphanum || c = '+' || c = '-' || c = '.'

/-- Netloc extraction for `urlsplit_m`. -/
def urlNetloc (scheme rest : List Char) : Except PyErr (List Char × List Char) :=
  match rest with
  | '/' :: '/' :: r =>
      if ((r.takeWhile fun c => !(c = '/' || c = '?' || c = '#')).any fun c => c = '[') !=
          ((r.takeWhile fun c => !(c = '/' || c = '?' || c = '#')).any fun c => c = ']') then
        .error .valueError
      else .ok (scheme, r.takeWhile fun c => !(c = '/' || c = '?' || c = '#'))
  | _ => .ok (scheme, [])

/-- Model of `urllib.parse.urlparse` restricted to the two components `is_url`
reads: the scheme (a leading `letter (alnum|+|-|.)*` before `:`, lower-cased)
and the netloc (after `//`, up to `/`, `?` or `#`).  A netloc with mismatched
square brackets raises `ValueError`, as in CPython. -/
def urlsplit_m (s : String) : Except PyErr (List Char × List Char) :=
  match (removeUnsafe s.data).dropWhile fun c => !(c = ':') with
  | ':' :: afterColon =>
      if !((removeUnsafe s.data).takeWhile fun c => !(c = ':')).isEmpty &&
          (((removeUnsafe s.data).takeWhile fun c => !(c = ':')).headD ' ').isAlpha &&
          ((removeUnsafe s.data).takeWhile fun c => !(c = ':')).all schemeChar then
        urlNetloc (((removeUnsafe s.data).takeWhile fun c => !(c = ':')).map Char.toLower)
          afterColon
      else urlNetloc [] (removeUnsafe s.data)
  | _ => urlNetloc [] (removeUnsafe s.data)

/-- `is_url(value)` from the source: `urlparse` inside `try/except`, true iff
both the scheme and the netloc are nonempty. -/
def is_url_checked (s : String) : Except PyErr Bool :=
  tryFalse ((urlsplit_m s).map fun r => !r.1.isEmpty && !r.2.isEmpty)

/-- Split a character list on a separator (Python `str.split(sep)`). -/
def splitOnChar (sep : Char) : List Char → List (List Char)
  | [] => [[]]
  | c :: t =>
      if c = sep then [] :: splitOnChar sep t
      else
        match splitOnChar sep t with
        | g :: gs => (c :: g) :: gs
        | [] => [[c]]

/-- One octet of a dotted-quad IPv4 address: 1–3 ASCII digits, no leading zero,
value at most 255 (`ipaddress.IPv4Address`'s `_parse_octet`). -/
def ipv4OctetOk (g : List Char) : Bool :=
  !g.isEmpty && g.length ≤ 3 && g.all Char.isDigit &&
  (decide (g.length = 1) || decide (g.headD '0' ≠ '0')) && decide (digitsVal g ≤ 255)

/-- Syntactic validity for `ipaddress.IPv4Address`: exactly four valid octets. -/
def ipv4_ok (l : List Char) : Bool :=
  (splitOnChar '.' l).length = 4 && (splitOnChar '.' l).all ipv4OctetOk

/-- `ipaddress.IPv4Address(str(value))`: `AddressValueError ⊂ ValueError` on
invalid input. -/
def ipv4_parse (s : String) : Except PyErr Unit :=
  if ipv4_ok s.data then .ok () else .error .valueError

def is_ipv4_checked (s : String) : Except PyErr Bool :=
  tryFalse ((ipv4_parse s).map fun _ => true)

def is_ipv4 (s : String) : Bool :=
  match is_ipv4_checked s with
  | .ok b => b
  | .error _ => false

/-- One hextet of an IPv6 address: 1–4 hexadecimal digits. -/
def hextetOk (g : List Char) : Bool :=
  !g.isEmpty && g.length ≤ 4 && g.all hexDigit

/-- Final hextet counting and validation for `ipv6_withSkip`. -/
def ipv6_counts (parts : List (List Char)) (hi lo : ℕ) : Bool :=
  hi + lo ≤ 7 && (parts.take hi).all hextetOk &&
    (parts.drop (parts.length - lo)).all hextetOk

/-- Validation when a `::` (empty interior part at `skipIdx`) is present. -/
def ipv6_withSkip (parts : List (List Char)) (skipIdx : ℕ) : Bool :=
  if (parts.headD []).isEmpty && skipIdx ≠ 1 then false
  else if (parts.getLastD []).isEmpty && parts.length - skipIdx - 1 ≠ 1 then false
  else
    ipv6_counts parts (if (parts.headD []).isEmpty then skipIdx - 1 else skipIdx)
      (if (parts.getLastD []).isEmpty then parts.length - skipIdx - 2
       else parts.length - skipIdx - 1)

/-- The part-level validation of `ipv6_core`. -/
def ipv6_parts (parts : List (List Char)) : Bool :=
  if 9 < parts.length then false
  else
    if 1 < (((parts.drop 1).dropLast).filter List.isEmpty).length then false
    else if (((parts.drop 1).dropLast).filter List.isEmpty).length = 1 then
      ipv6_withSkip parts (1 + (((parts.drop 1).dropLast).takeWhile fun g => !g.isEmpty).length)
    else
      parts.length = 8 && parts.all hextetOk

/-- Model of `ipaddress.IPv6Address`'s `_ip_int_from_string` on the address
part (after any scope id): split on `:`; at least 3 parts; a final dotted part
must be a valid IPv4 address (contributing two hextets); at most 9 parts; at
most one empty interior part (the `::`), with a leading or trailing empty part
only as part of a leading or trailing `::`; the hextets outside the `::` must
number at most 7 and each be 1–4 hex digits; without `::` exactly 8 valid
hextets are required. -/
def ipv6_core (l : List Char) : Bool :=
  if (splitOnChar ':' l).length < 3 then false
  else
    if ((splitOnChar ':' l).getLastD []).any (fun c => c = '.') &&
        !ipv4_ok ((splitOnChar ':' l).getLastD []) then false
    else ipv6_parts
      (if ((splitOnChar ':' l).getLastD []).any (fun c => c = '.') then
        (splitOnChar ':' l).dropLast ++ [['0'], ['0']]
      else splitOnChar ':' l)

/-- `ipaddress.IPv6Address(str(value))`: an optional nonempty `%scope` suffix
(itself free of `%`), then the address part. -/
def ipv6_parse (s : String) : Except PyErr Unit :=
  match s.data.dropWhile fun c => !(c = '%') with
  | '%' :: scope =>
      if scope.isEmpty || scope.any (fun c => c = '%') then .error .valueError
      else if ipv6_core (s.data.takeWhile fun c => !(c = '%')) then .ok ()
      else .error .valueError
  | _ => if ipv6_core s.data then .ok () else .error .valueError

def is_ipv6_checked (s : String) : Except PyErr Bool :=
  tryFalse ((ipv6_parse s).map fun _ => true)

def is_ipv6 (s : String) : Bool :=
  match is_ipv6_checked s with
  | .ok b => b
  | .error _ => false

/-- `is_ip(value)` from the source: `is_ipv4(value) or is_ipv6(value)`. -/
def is_ip_checked (s : String) : Except PyErr Bool := .ok (is_ipv4 s || is_ipv6 s)

/-- `re.sub(r'[\s\-\(\)]', '', …)` from `is_phone`. -/
def phoneClean (l : List Char) : List Char :=
  l.filter fun c => !(pyWs c || c = '-' || c = '(' || c = ')')

/-- After the leading digit: at most 15 further digits, then the `$` anchor. -/
def phoneDigits (rest : List Char) : Bool :=
  (rest.takeWhile Char.isDigit).length ≤ 15 && dollarEnd (rest.dropWhile Char.isDigit)

/-- `is_phone(value)` from the source, on the value's string form: clean the
string, then `re.match(r'^[\+]?[1-9][\d]{0,15}$', …)` (`\d` modelled for ASCII
input; the `$` anchor tolerates a final newline). -/
def is_phone (s : String) : Bool :=
  match phoneClean s.data with
  | '+' :: c :: rest => ('1' ≤ c && c ≤ '9') && phoneDigits rest
  | c :: rest => ('1' ≤ c && c ≤ '9') && phoneDigits rest
  | [] => false

def is_phone_checked (s : String) : Except PyErr Bool := .ok (is_phone s)

/-- `%m` of `_strptime`: ordered alternation `1[0-2]|0[1-9]|[1-9]`. -/
def parseMonth : List Char → Option (ℕ × List Char)
  | '1' :: c :: rest =>
      if '0' ≤ c && c ≤ '2' then some (10 + (c.toNat - 48), rest)
      else some (1, c :: rest)
  | '0' :: c :: rest =>
      if '1' ≤ c && c ≤ '9' then some (c.toNat - 48, rest) else none
  | c :: rest => if '1' ≤ c && c ≤ '9' then some (c.toNat - 48, rest) else none
  | [] => none

/-- `%d` of `_strptime`: ordered alternation `3[01]|[12]\d|0[1-9]|[1-9]`. -/
def parseDay : List Char → Option (ℕ × List Char)
  | '3' :: c :: rest =>
      if c = '0' then some (30, rest)
      else if c = '1' then some (31, rest)
      else some (3, c :: rest)
  | '0' :: c :: rest =>
      if '1' ≤ c && c ≤ '9' then some (c.toNat - 48, rest) else none
  | c :: d :: rest =>
      if ('1' ≤ c && c ≤ '2') && d.isDigit then
        some ((c.toNat - 48) * 10 + (d.toNat - 48), rest)
      else if '1' ≤ c && c ≤ '9' then some (c.toNat - 48, d :: rest)
      else none
  | [c] => if '1' ≤ c && c ≤ '9' then some (c.toNat - 48, []) else none
  | [] => none

/-- Days of a month in the proleptic Gregorian calendar used by `datetime`. -/
def daysInMonth (y m : ℕ) : ℕ :=
  if m = 2 then (if y % 4 = 0 && (y % 100 ≠ 0 || y % 400 = 0) then 29 else 28)
  else if m = 4 || m = 6 || m = 9 || m = 11 then 30
  else 31

/-- `datetime.strptime(str(value), '%Y-%m-%d')`: `%Y` is exactly four digits,
the whole string must be consumed, and the `datetime` constructor then checks
the calendar ranges (year at least 1, day within the month). -/
def strptime_Ymd (l : List Char) : Except PyErr (ℕ × ℕ × ℕ) :=
  match l with
  | y1 :: y2 :: y3 :: y4 :: '-' :: rest =>
      if y1.isDigit && y2.isDigit && y3.isDigit && y4.isDigit then
        match parseMonth rest with
        | some (m, '-' :: rest3) =>
            match parseDay rest3 with
            | some (d, []) =>
                if 1 ≤ digitsVal [y1, y2, y3, y4] ∧
                    d ≤ daysInMonth (digitsVal [y1, y2, y3, y4]) m then
                  .ok (digitsVal [y1, y2, y3, y4], m, d)
                else .error .valueError
            | _ => .error .valueError
        | _ => .error .valueError
      else .error .valueError
  | _ => .error .valueError

/-- `is_date(value)` from the source with the default format: `strptime` inside
a bare `try/except`. -/
def is_date_checked (s : String) : Except PyErr Bool :=
  tryFalse ((strptime_Ymd s.data).map fun _ => true)

def is_strong_password_checked (s : String) (min_len : ℤ) : Except PyErr PyRes :=
  .ok (is_strong_password s min_len)

def is_uuid_checked (s : String) : Except PyErr Bool := .ok (is_uuid s)

/-- Whitespace accepted between JSON tokens. -/
def jsonWsChar (c : Char) : Bool := c = ' ' || c = '\t' || c = '\n' || c = '\r'

/-- Scan a JSON string body after its opening quote; returns the input after
the closing quote.  Escapes are the JSON ones (`\" \\ \/ \b \f \n \r \t` and
`\uXXXX`); raw control characters are rejected (strict mode). -/
def jsonStringScan : List Char → Option (List Char)
  | [] => none
  | '"' :: rest => some rest
  | '\\' :: e :: rest =>
      if e = '"' || e = '\\' || e = '/' || e = 'b' || e = 'f' || e = 'n' ||
          e = 'r' || e = 't' then jsonStringScan rest
      else if e = 'u' then
        match rest with
        | h1 :: h2 :: h3 :: h4 :: rest2 =>
            if hexDigit h1 && hexDigit h2 && hexDigit h3 && hexDigit h4 then
              jsonStringScan rest2
            else none
        | _ => none
      else none
  | c :: rest => if c.toNat < 32 then none else jsonStringScan rest

/-- The fraction part of a JSON number (`(\.\d+)?`). -/
def jsonFrac : List Char → Option (List Char)
  | '.' :: rest =>
      if (rest.takeWhile Char.isDigit).isEmpty then none
      else some (rest.dropWhile Char.isDigit)
  | t => some t

/-- The mandatory digits of a JSON exponent. -/
def jsonExpDigits (l : List Char) : Option (List Char) :=
  if (l.takeWhile Char.isDigit).isEmpty then none
  else some (l.dropWhile Char.isDigit)

/-- The exponent part of a JSON number (`([eE][+-]?\d+)?`). -/
def jsonExp : List Char → Option (List Char)
  | c :: rest =>
      if c = 'e' || c = 'E' then
        jsonExpDigits (match rest with
          | s :: t => if s = '+' || s = '-' then t else rest
          | [] => rest)
      else some (c :: rest)
  | [] => some []

/-- A JSON number: `-?(0|[1-9]\d*)(\.\d+)?([eE][+-]?\d+)?`. -/
def jsonNumberScan (l : List Char) : Option (List Char) :=
  match (match l with | '-' :: t => t | t => t) with
  | '0' :: rest => (jsonFrac rest).bind jsonExp
  | c :: rest =>
      if '1' ≤ c && c ≤ '9' then (jsonFrac (rest.dropWhile Char.isDigit)).bind jsonExp
      else none
  | [] => none

/-- Fuel-bounded recursive-descent recogniser for `json.loads`.  Modes:
0 = a value; 1 = array body just after `[`; 3 = array elements after a comma;
2 = object body just after the opening brace; 4 = object members.  The literals
`true`, `false`, `null` and Python's accepted non-standard `NaN`, `Infinity`,
`-Infinity` are handled in mode 0.  Each recursive call spends one unit of
fuel; the caller supplies more fuel than any input can consume. -/
def jsonP : ℕ → ℕ → List Char → Option (List Char)
  | 0, _, _ => none
  | fuel + 1, 0, l =>
      match l.dropWhile jsonWsChar with
      | '"' :: rest => jsonStringScan rest
      | '\x7b' :: rest => jsonP fuel 2 rest
      | '[' :: rest => jsonP fuel 1 rest
      | l' =>
          if charsBegins ['t', 'r', 'u', 'e'] l' then some (l'.drop 4)
          else if charsBegins ['f', 'a', 'l', 's', 'e'] l' then some (l'.drop 5)
          else if charsBegins ['n', 'u', 'l', 'l'] l' then some (l'.drop 4)
          else if charsBegins ['N', 'a', 'N'] l' then some (l'.drop 3)
          else if charsBegins ['I', 'n', 'f', 'i', 'n', 'i', 't', 'y'] l' then
            some (l'.drop 8)
          else if charsBegins ['-', 'I', 'n', 'f', 'i', 'n', 'i', 't', 'y'] l' then
            some (l'.drop 9)
          else jsonNumberScan l'
  | fuel + 1, 1, l =>
      match l.dropWhile jsonWsChar with
      | ']' :: rest => some rest
      | l' => jsonP fuel 3 l'
  | fuel + 1, 3, l =>
      (jsonP fuel 0 l).bind fun r =>
        match r.dropWhile jsonWsChar with
        | ',' :: rest => jsonP fuel 3 rest
        | ']' :: rest => some rest
        | _ => none
  | fuel + 1, 2, l =>
      match l.dropWhile jsonWsChar with
      | '\x7d' :: rest => some rest
      | l' => jsonP fuel 4 l'
  | fuel + 1, 4, l =>
      match l.dropWhile jsonWsChar with
      | '"' :: rest =>
          (jsonStringScan rest).bind fun r1 =>
            match r1.dropWhile jsonWsChar with
            | ':' :: r3 =>
                (jsonP fuel 0 r3).bind fun r4 =>
                  match r4.dropWhile jsonWsChar with
                  | ',' :: rest2 => jsonP fuel 4 rest2
                  | '\x7d' :: rest2 => some rest2
                  | _ => none
            | _ => none
      | _ => none
  | _ + 1, _, _ => none

/-- `json.loads(str(value))`: parse one value, then only whitespace may remain;
`json.JSONDecodeError ⊂ ValueError` otherwise. -/
def json_loads (s : String) : Except PyErr Unit :=
  match jsonP (4 * s.data.length + 8) 0 s.data with
  | some rest =>
      if (rest.dropWhile jsonWsChar).isEmpty then .ok () else .error .valueError
  | none => .error .valueError

/-- `is_json(value)` from the source: `json.loads` inside a bare `try/except`. -/
def is_json_checked (s : String) : Except PyErr Bool :=
  tryFalse ((json_loads s).map fun _ => true)

def is_base64_checked (s : String) : Except PyErr Bool :=
  tryFalse
    (if s.data.length % 4 ≠ 0 then .ok false
     else (b64decode_validate s.data).map fun _ => true)

/-- `is_hex_color(value)` from the source, on the value's string form:
`re.match(r'^#([A-Fa-f0-9]{6}|[A-Fa-f0-9]{3})$', …)`; the six-digit alternative
is tried first, and the `$` anchor tolerates a final newline. -/
def is_hex_color (s : String) : Bool :=
  match s.data with
  | '#' :: rest =>
      (decide (6 ≤ rest.length) && (rest.take 6).all hexDigit && dollarEnd (rest.drop 6)) ||
      (decide (3 ≤ rest.length) && (rest.take 3).all hexDigit && dollarEnd (rest.drop 3))
  | _ => false

def is_hex_color_checked (s : String) : Except PyErr Bool := .ok (is_hex_color s)

/-- ASCII lower-casing of a character list (Python `str.lower()` restricted to
the modelled ASCII fragment). -/
def toLowerL (l : List Char) : List Char := l.map Char.toLower

/-- Does `hay` end with `needle`? -/
def endsWithL (hay needle : List Char) : Bool := charsBegins needle.reverse hay.reverse

/-- `has_extension(value, extensions)` from the source, on the value's string
form: a single extension string is wrapped into a one-element list; true iff
the lower-cased string form ends with `.` + one of the lower-cased
extensions. -/
def has_extension (s : String) (extensions : List String) : Bool :=
  extensions.any fun e => endsWithL (toLowerL s.data) ('.' :: toLowerL e.data)

def has_extension_checked (s : String) (extensions : List String) : Except PyErr Bool :=
  .ok (has_extension s extensions)

/-! Definitions for the remaining claims are added above this line; the lemmas
and claim theorems follow below. -/

/-- C8: `exact_length(value, n)` agrees with the conjunction of
`min_length(value, n)` and `max_length(value, n)`: all three compare the length
of the value's string form against `n` with inclusive bounds, and an integer
equals `n` exactly when it is both at least and at most `n`. -/
theorem c8_exact_length (s : String) (n : ℤ) :
    exact_length s n = (min_length s n && max_length s n) := by
  unfold exact_length min_length max_length
  rw [Bool.eq_iff_iff]
  simp only [Bool.and_eq_true, decide_eq_true_eq]
  constructor
  · intro h; omega
  · intro h; omega

/-- C10: with an empty `values` sequence the bulk membership predicates are
vacuous for every list `lst`: `all_in_list([], lst)` and `none_in_list([], lst)`
are true and `any_in_list([], lst)` is false. -/
theorem c10_vacuous_bulk (l : List PyValue) :
    all_in_list [] (.list l) = true ∧ none_in_list [] (.list l) = true ∧
    any_in_list [] (.list l) = false :=
  ⟨rfl, rfl, rfl⟩

/-- C9: whenever the membership test `is_in(value, collection)` is defined (returns
a boolean rather than raising), `not_in(value, collection)` returns exactly its
boolean negation. -/
theorem c9_not_in_negation (v c : PyValue) (b : Bool) (h : is_in v c = .ok b) :
    not_in v c = .ok (!b) := by
  unfold is_in at h
  unfold not_in
  rw [h]
  rfl

/-- Witness for C9 at a concrete input: `9 not in [1, 2, 3]` is true. -/
theorem c9_not_in_negation_witness :
    not_in (.int 9) (.list [.int 1, .int 2, .int 3]) = .ok (!false) :=
  c9_not_in_negation _ _ false (by simp [is_in, pyContains, pyEq])

/-- C7: on a list second argument, `all_in_list`, `any_in_list` and `none_in_list`
compute respectively whether every, at least one, or no element of `values` is a
member of the list (membership by Python `==`); on a non-list second argument all
three return false; and the spec's examples hold. -/
theorem c7_bulk_membership :
    (∀ (values : List PyValue) (l : List PyValue),
        (all_in_list values (.list l) = true ↔ ∀ v ∈ values, ∃ e ∈ l, pyEq e v = true) ∧
        (any_in_list values (.list l) = true ↔ ∃ v ∈ values, ∃ e ∈ l, pyEq e v = true) ∧
        (none_in_list values (.list l) = true ↔ ∀ v ∈ values, ¬∃ e ∈ l, pyEq e v = true)) ∧
    (∀ (values : List PyValue) (lst : PyValue), isListV lst = false →
        all_in_list values lst = false ∧ any_in_list values lst = false ∧
        none_in_list values lst = false) ∧
    all_in_list [.int 1, .int 2] (.list [.int 1, .int 2, .int 3]) = true ∧
    any_in_list [.int 9] (.list [.int 1, .int 2, .int 3]) = false ∧
    none_in_list [.int 9, .int 10] (.list [.int 1, .int 2, .int 3]) = true := by
  refine ⟨?_, ?_, by simp [all_in_list, pyEq], by simp [any_in_list, pyEq],
    by simp [none_in_list, pyEq]⟩
  · intro values l
    refine ⟨?_, ?_, ?_⟩ <;>
      simp [all_in_list, any_in_list, none_in_list, List.all_eq_true, List.any_eq_true]
  · intro values lst h
    cases lst <;> simp_all [isListV, all_in_list, any_in_list, none_in_list]

/-- Witness for C7 at a concrete non-list second argument. -/
theorem c7_bulk_membership_witness :
    all_in_list [.int 1] (.str "x") = false ∧ any_in_list [.int 1] (.str "x") = false ∧
    none_in_list [.int 1] (.str "x") = false :=
  c7_bulk_membership.2.1 [.int 1] (.str "x") (by rfl)

lemma luhnSumFrom_spec (ds : List ℕ) :
    luhnSumFrom ds (decide (ds.length % 2 = 0)) =
      ∑ i ∈ Finset.range ds.length,
        if (ds.length - 1 - i) % 2 = 1 then dbl (ds.getD i 0) else ds.getD i 0 := by
  induction ds with
  | nil => simp [luhnSumFrom]
  | cons d rest ih =>
      have hb : (!decide ((rest.length + 1) % 2 = 0)) = decide (rest.length % 2 = 0) := by
        rcases Nat.mod_two_eq_zero_or_one rest.length with h | h <;>
          simp [h, Nat.add_mod]
      simp only [List.length_cons]
      simp only [luhnSumFrom, hb, ih]
      rw [Finset.sum_range_succ']
      have hshift : ∀ i ∈ Finset.range rest.length,
          (if (rest.length + 1 - 1 - (i + 1)) % 2 = 1 then dbl ((d :: rest).getD (i + 1) 0)
            else (d :: rest).getD (i + 1) 0) =
          (if (rest.length - 1 - i) % 2 = 1 then dbl (rest.getD i 0) else rest.getD i 0) := by
        intro i _
        have h1 : rest.length + 1 - 1 - (i + 1) = rest.length - 1 - i := by omega
        rw [h1, List.getD_cons_succ]
      rw [Finset.sum_congr rfl hshift]
      have hhead : (if decide ((rest.length + 1) % 2 = 0) = true then dbl d else d) =
          (if (rest.length + 1 - 1 - 0) % 2 = 1 then dbl ((d :: rest).getD 0 0)
            else (d :: rest).getD 0 0) := by
        have h2 : rest.length + 1 - 1 - 0 = rest.length := by omega
        rcases Nat.mod_two_eq_zero_or_one rest.length with h | h <;>
          simp [h2, h, Nat.add_mod, List.getD_cons_zero]
      rw [hhead, add_comm]

lemma luhn_check_spec (ds : List ℕ) : luhn_check ds = decide (luhnSpec ds) := by
  unfold luhn_check luhnSpec
  rw [luhnSumFrom_spec, Bool.eq_iff_iff]
  simp [beq_iff_eq]

lemma charDigitsToInts_digits (l : List Char) (h : ∀ c ∈ l, c.isDigit = true) :
    charDigitsToInts l = .ok (l.map fun c => c.toNat - 48) := by
  induction l with
  | nil => rfl
  | cons c t ih =>
      have hc := h c (List.mem_cons_self c t)
      unfold charDigitsToInts int_of_digit_char
      rw [if_pos hc, ih fun x hx => h x (List.mem_cons_of_mem c hx)]
      rfl

lemma py_isdigit_ascii {c : Char} (h : asciiChar c = true) : py_isdigit c = c.isDigit := by
  cases hc : superscriptDigit c
  · simp [py_isdigit, hc]
  · exfalso
    have h128 : 128 ≤ c.toNat := by
      unfold superscriptDigit at hc
      simp only [Bool.or_eq_true, decide_eq_true_eq] at hc
      rcases hc with ((((((((h1 | h1) | h1) | h1) | h1) | h1) | h1) | h1) | h1) | h1 <;>
        subst h1 <;> decide
    unfold asciiChar at h
    simp only [decide_eq_true_eq] at h
    omega

lemma py_isdigit_of_isDigit {c : Char} (h : c.isDigit = true) : py_isdigit c = true := by
  simp [py_isdigit, h]

lemma asciiStr_clean {s : String} (h : asciiStr s = true) :
    ∀ c ∈ cleanCard s.data, asciiChar c = true := by
  unfold asciiStr at h
  intro c hc
  exact List.all_eq_true.mp h c (List.mem_filter.mp hc).1

lemma credit_ascii (s : String) (h : asciiStr s = true) :
    is_credit_card_checked s = .ok (creditSpec s) := by
  have hasc := asciiStr_clean h
  unfold is_credit_card_checked
  split
  case isTrue hcond =>
    suffices hs : creditSpec s = false by rw [hs]
    unfold creditSpec
    simp only [decide_eq_false_iff_not]
    rintro ⟨h13, h19, hdig, -⟩
    simp only [Bool.or_eq_true, Bool.not_eq_true', decide_eq_true_eq] at hcond
    rcases hcond with (hpd | hlt) | hgt
    · unfold pyIsdigitList at hpd
      rcases Bool.and_eq_false_iff.mp hpd with hemp | hall
      · have : (cleanCard s.data).isEmpty = true := by
          cases hval : (cleanCard s.data).isEmpty
          · rw [hval] at hemp; exact absurd hemp (by decide)
          · rfl
        rw [List.isEmpty_iff.mp this] at h13
        simp at h13
      · rcases List.all_eq_false.mp hall with ⟨c, hc, hpc⟩
        exact hpc (py_isdigit_of_isDigit (hdig c hc))
    · omega
    · omega
  case isFalse hcond =>
    rw [Bool.not_eq_true] at hcond
    simp only [Bool.or_eq_false_iff, Bool.not_eq_false', decide_eq_false_iff_not] at hcond
    obtain ⟨⟨hpd, hlt⟩, hgt⟩ := hcond
    unfold pyIsdigitList at hpd
    rw [Bool.and_eq_true] at hpd
    have hall := hpd.2
    have hdig : ∀ c ∈ cleanCard s.data, c.isDigit = true := by
      intro c hc
      rw [← py_isdigit_ascii (hasc c hc)]
      exact List.all_eq_true.mp hall c hc
    rw [charDigitsToInts_digits _ hdig]
    show Except.ok (luhn_check ((cleanCard s.data).map fun c => c.toNat - 48)) =
      Except.ok (creditSpec s)
    rw [luhn_check_spec]
    unfold creditSpec
    exact congrArg Except.ok (decide_eq_decide.mpr
      ⟨fun hl => ⟨by omega, by omega, hdig, hl⟩, fun hconj => hconj.2.2.2⟩)

/-- C2 (amended): for every input value whose string form is ASCII,
`is_credit_card` strips whitespace and hyphens, returns false when the remainder
is not all decimal digits or its length is outside 13–19, and otherwise returns
true iff the Luhn checksum (double every second digit starting from the
second-to-last moving left, subtract 9 from doubled values exceeding 9, require
the digit sum divisible by 10) holds; the claim's three examples hold.  (On
non-ASCII digit-like input that `str.isdigit` accepts but `int()` rejects, the
predicate raises instead of returning — see the counterexample.) -/
theorem c2_luhn_credit_card :
    (∀ s : String, asciiStr s = true → is_credit_card_checked s = .ok (creditSpec s)) ∧
    is_credit_card_checked "4532015112830366" = .ok true ∧
    is_credit_card_checked "4532015112830367" = .ok false ∧
    is_credit_card_checked "123" = .ok false :=
  ⟨credit_ascii, by rfl, by rfl, by rfl⟩

/-- C2 counterexample to the claim as stated: on the value `"¹¹¹¹¹¹¹¹¹¹¹¹¹"`
(thirteen superscript-one characters, which are not decimal digits, so the claim
requires the result false) the source raises a `ValueError` instead of
returning: the cleaned string passes `str.isdigit`, has length 13, and then
`int(d)` fails on the first superscript digit inside the Luhn loop. -/
theorem c2_counterexample :
    is_credit_card_checked "¹¹¹¹¹¹¹¹¹¹¹¹¹" = .error .valueError := by rfl

/-- Witness for C2 at the claim's own example input. -/
theorem c2_luhn_credit_card_witness :
    asciiStr "4532015112830366" = true ∧
    is_credit_card_checked "4532015112830366" = .ok (creditSpec "4532015112830366") :=
  ⟨by rfl, c2_luhn_credit_card.1 "4532015112830366" (by rfl)⟩

lemma isDigit_ne_underscore {c : Char} (h : c.isDigit = true) : c ≠ '_' := by
  intro h2
  subst h2
  exact absurd h (by decide)

lemma mem_of_getLast?_eq {l : List Char} {x : Char} (hx : l.getLast? = some x) : x ∈ l := by
  have hmem : x ∈ l.getLast? := Option.mem_def.mpr hx
  rcases List.mem_getLast?_eq_getLast hmem with ⟨hne, hget⟩
  rw [hget]
  exact List.getLast_mem hne

lemma digitRun_nil : digitRun [] :=
  ⟨by simp, by simp, by simp⟩

lemma digitRun_cons_digit {c : Char} (hc : c.isDigit = true) (l : List Char) :
    digitRun (c :: l) ↔ digitRun l := by
  unfold digitRun
  cases l with
  | nil => simp [isDigit_ne_underscore hc, hc]
  | cons d t =>
      rw [List.chain'_cons]
      simp only [List.mem_cons, List.getLast?_cons_cons]
      constructor
      · rintro ⟨hball, ⟨-, hch⟩, hlast⟩
        exact ⟨fun x hx => hball x (Or.inr hx), hch, hlast⟩
      · rintro ⟨hball, hch, hlast⟩
        refine ⟨?_, ⟨fun h2 => absurd h2 (isDigit_ne_underscore hc), hch⟩, hlast⟩
        intro x hx
        rcases hx with rfl | hx
        · exact Or.inl hc
        · exact hball x hx

lemma digitRun_cons_underscore (l : List Char) :
    digitRun ('_' :: l) ↔ ∃ c t, l = c :: t ∧ c.isDigit = true ∧ digitRun (c :: t) := by
  cases l with
  | nil =>
      unfold digitRun
      simp
  | cons d t =>
      unfold digitRun
      constructor
      · rintro ⟨hball, hch, hlast⟩
        rw [List.chain'_cons] at hch
        rw [List.getLast?_cons_cons] at hlast
        refine ⟨d, t, rfl, hch.1 rfl, ?_, hch.2, hlast⟩
        intro x hx
        exact hball x (List.mem_cons_of_mem _ hx)
      · rintro ⟨c, t', heq, hcd, hball, hch, hlast⟩
        obtain ⟨rfl, rfl⟩ : d = c ∧ t = t' := by
          injection heq with h1 h2
          exact ⟨h1, h2⟩
        refine ⟨?_, ?_, ?_⟩
        · intro x hx
          rcases List.mem_cons.mp hx with rfl | hx
          · exact Or.inr rfl
          · exact hball x hx
        · rw [List.chain'_cons]
          exact ⟨fun _ => hcd, hch⟩
        · rw [List.getLast?_cons_cons]
          exact hlast

lemma intRestScan_iff (l : List Char) : intRestScan l = true ↔ digitRun l := by
  induction l using intRestScan.induct with
  | case1 => simpa [intRestScan.eq_1] using digitRun_nil
  | case2 c l' ih =>
      rw [intRestScan.eq_2, digitRun_cons_underscore, Bool.and_eq_true]
      constructor
      · rintro ⟨hc, hscan⟩
        exact ⟨c, l', rfl, hc, (digitRun_cons_digit hc l').mpr (ih.mp hscan)⟩
      · rintro ⟨d, t, heq, hd, hrun⟩
        obtain ⟨rfl, rfl⟩ : c = d ∧ l' = t := by
          injection heq with h1 h2
          exact ⟨h1, h2⟩
        exact ⟨hd, ih.mpr ((digitRun_cons_digit hd _).mp hrun)⟩
  | case3 =>
      rw [intRestScan.eq_3, digitRun_cons_underscore]
      simp
  | case4 c l hne ih =>
      rw [intRestScan.eq_4 c l hne, Bool.and_eq_true]
      by_cases hc : c.isDigit = true
      · rw [digitRun_cons_digit hc]
        exact ⟨fun h2 => ih.mp h2.2, fun hrun => ⟨hc, ih.mpr hrun⟩⟩
      · constructor
        · rintro ⟨h1, -⟩
          exact absurd h1 hc
        · intro hrun
          obtain ⟨hball, -, -⟩ := hrun
          rcases hball c (List.mem_cons_self c l) with h1 | h1
          · exact absurd h1 hc
          · exact absurd h1 hne

lemma intNumeral_cons (c : Char) (t : List Char) :
    intNumeral (c :: t) ↔ (c.isDigit = true ∧ digitRun t) := by
  unfold intNumeral digitRun
  constructor
  · rintro ⟨-, hhead, hlast, hball, hch⟩
    have hc : c.isDigit = true := by simpa using hhead
    refine ⟨hc, fun x hx => hball x (List.mem_cons_of_mem _ hx), hch.tail, ?_⟩
    cases t with
    | nil => simp
    | cons d t' =>
        rw [List.getLast?_cons_cons] at hlast
        intro hbad
        rw [hbad] at hlast
        exact absurd hlast (by decide)
  · rintro ⟨hc, hball, hch, hlast⟩
    refine ⟨by simp, by simp [hc], ?_, ?_, ?_⟩
    · cases t with
      | nil => simp [hc]
      | cons d t' =>
          rw [List.getLast?_cons_cons]
          cases hx : (d :: t').getLast? with
          | none => simp at hx
          | some x =>
              rcases hball x (mem_of_getLast?_eq hx) with h1 | h1
              · simp [h1]
              · rw [h1] at hx
                exact absurd hx hlast
    · intro x hx
      rcases List.mem_cons.mp hx with rfl | hx
      · exact Or.inl hc
      · exact hball x hx
    · cases t with
      | nil => simp
      | cons d t' =>
          rw [List.chain'_cons]
          exact ⟨fun h2 => absurd h2 (isDigit_ne_underscore hc), hch⟩

lemma intBodyScan_iff (l : List Char) : intBodyScan l = true ↔ intNumeral l := by
  cases l with
  | nil =>
      unfold intBodyScan intNumeral
      simp
  | cons c t =>
      rw [show intBodyScan (c :: t) = (c.isDigit && intRestScan t) from rfl,
        Bool.and_eq_true, intRestScan_iff, intNumeral_cons]

/-- C3 (amended): `is_integer(value)` returns true exactly when Python's `int()`
conversion of the value succeeds: always true on integers and on every (finite)
float — non-integral floats are truncated rather than rejected — true on a
string iff, after stripping surrounding whitespace and one optional sign, it is
a nonempty decimal numeral with PEP 515 underscore grouping, and false on
`None` and lists (the `TypeError` is swallowed). -/
theorem c3_int_conversion (v : PyValue) (h : asciiVal v = true) :
    is_integer v = amendedIntSpec v := by
  cases v with
  | int n => rfl
  | float q => rfl
  | none => rfl
  | list xs => rfl
  | str s =>
      show exOk (pyIntOfString s) = amendedIntSpec (.str s)
      unfold pyIntOfString amendedIntSpec
      by_cases hscan : intBodyScan (stripSign (trimWs s.data)) = true
      · rw [if_pos hscan]
        simp [exOk, decide_eq_true ((intBodyScan_iff _).mp hscan)]
      · rw [if_neg hscan]
        have hnot : ¬ intNumeral (stripSign (trimWs s.data)) := fun hn =>
          hscan ((intBodyScan_iff _).mpr hn)
        simp [exOk, hnot]

/-- C3 counterexample to the claim as stated: the non-integral float `3.5`
cannot be losslessly interpreted as an integer (its denominator is 2, not 1),
yet `is_integer(3.5)` returns true because `int(3.5)` truncates to 3 instead of
raising. -/
theorem c3_counterexample :
    is_integer (.float (7 / 2 : ℚ)) = true ∧ (7 / 2 : ℚ).den ≠ 1 :=
  ⟨rfl, by norm_num⟩

/-- Witness for C3 at a concrete input. -/
theorem c3_int_conversion_witness :
    asciiVal (.str "42") = true ∧ is_integer (.str "42") = amendedIntSpec (.str "42") :=
  ⟨by rfl, c3_int_conversion (.str "42") (by rfl)⟩

lemma expectChar_eq_some (c : Char) (l r : List Char) :
    expectChar c l = some r ↔ l = c :: r := by
  cases l with
  | nil => simp [expectChar]
  | cons x t =>
      unfold expectChar
      by_cases hx : x = c
      · subst hx
        simp
      · simp [hx]

lemma expectClass_eq_some (p : Char → Bool) (l r : List Char) :
    expectClass p l = some r ↔ ∃ x, l = x :: r ∧ p x = true := by
  cases l with
  | nil => simp [expectClass]
  | cons x t =>
      unfold expectClass
      by_cases hx : p x = true
      · simp only [hx, if_pos, Option.some.injEq, List.cons.injEq]
        constructor
        · intro ht
          exact ⟨x, ⟨rfl, ht⟩, hx⟩
        · rintro ⟨y, ⟨rfl, rfl⟩, -⟩
          rfl
      · simp only [hx, if_neg, Bool.false_eq_true]
        constructor
        · intro hf
          exact absurd hf (by simp)
        · rintro ⟨y, heq, hy⟩
          injection heq with h1 h2
          subst h1
          exact absurd hy hx

lemma takeExact_eq_some (p : Char → Bool) :
    ∀ (n : ℕ) (l r : List Char),
      takeExact p n l = some r ↔
        ∃ g, l = g ++ r ∧ g.length = n ∧ ∀ c ∈ g, p c = true := by
  intro n
  induction n with
  | zero =>
      intro l r
      unfold takeExact
      simp only [Option.some.injEq]
      constructor
      · rintro rfl
        exact ⟨[], rfl, rfl, by simp⟩
      · rintro ⟨g, rfl, hlen, -⟩
        rw [List.length_eq_zero.mp hlen]
        rfl
  | succ n ih =>
      intro l r
      cases l with
      | nil =>
          unfold takeExact
          constructor
          · intro hf
            exact absurd hf (by simp)
          · rintro ⟨g, hg, hlen, -⟩
            cases g with
            | nil => simp at hlen
            | cons a g' => simp at hg
      | cons c t =>
          unfold takeExact
          by_cases hp : p c = true
          · rw [if_pos hp, ih]
            constructor
            · rintro ⟨g, rfl, hlen, hball⟩
              refine ⟨c :: g, rfl, by simp [hlen], ?_⟩
              intro x hx
              rcases List.mem_cons.mp hx with rfl | hx
              · exact hp
              · exact hball x hx
            · rintro ⟨g, hg, hlen, hball⟩
              cases g with
              | nil => simp at hlen
              | cons a g' =>
                  obtain ⟨rfl, rfl⟩ : a = c ∧ t = g' ++ r := by
                    rw [List.cons_append] at hg
                    injection hg with h1 h2
                    exact ⟨h1.symm, h2⟩
                  exact ⟨g', rfl, by simpa using hlen,
                    fun x hx => hball x (List.mem_cons_of_mem _ hx)⟩
          · rw [if_neg hp]
            constructor
            · intro hf
              exact absurd hf (by simp)
            · rintro ⟨g, hg, hlen, hball⟩
              cases g with
              | nil => simp at hlen
              | cons a g' =>
                  rw [List.cons_append] at hg
                  injection hg with h1 h2
                  subst h1
                  exact absurd (hball c (List.mem_cons_self c g')) hp

lemma takeExact_append (p : Char → Bool) :
    ∀ (g r : List Char), (∀ c ∈ g, p c = true) →
      takeExact p g.length (g ++ r) = some r := by
  intro g
  induction g with
  | nil => intro r _; rfl
  | cons c t ih =>
      intro r hball
      have hc := hball c (List.mem_cons_self c t)
      simp only [List.length_cons, List.cons_append]
      unfold takeExact
      rw [if_pos hc]
      exact ih r fun x hx => hball x (List.mem_cons_of_mem _ hx)

lemma takeExact_append_len (p : Char → Bool) {n : ℕ} (g r : List Char)
    (hlen : g.length = n) (hball : ∀ c ∈ g, p c = true) :
    takeExact p n (g ++ r) = some r := by
  subst hlen
  exact takeExact_append p g r hball

lemma versionNibble_hexLower {c : Char} (h : versionNibble c = true) :
    hexLower c = true := by
  unfold versionNibble at h
  simp only [Bool.or_eq_true, decide_eq_true_eq] at h
  rcases h with (((h | h) | h) | h) | h <;> subst h <;> decide

lemma variantNibble_hexLower {c : Char} (h : variantNibble c = true) :
    hexLower c = true := by
  unfold variantNibble at h
  simp only [Bool.or_eq_true, decide_eq_true_eq] at h
  rcases h with ((h | h) | h) | h <;> subst h <;> decide

lemma dollarEnd_iff (l : List Char) : dollarEnd l = true ↔ (l = [] ∨ l = ['\n']) := by
  cases l with
  | nil => simp [dollarEnd]
  | cons c t =>
      cases t with
      | nil => simp [dollarEnd]
      | cons d t' => simp [dollarEnd]

lemma uuidScan_eq_some (l rest : List Char) :
    uuidScan l = some rest ↔ ∃ core, l = core ++ rest ∧ uuidLayout core := by
  constructor
  · intro h
    unfold uuidScan at h
    simp only [Option.bind_eq_some] at h
    obtain ⟨l1, h1, l2, h2, l3, h3, l4, h4, l5, h5, l6, h6, l7, h7, l8, h8, l9, h9,
      l10, h10, h11⟩ := h
    obtain ⟨g1, e1, len1, ball1⟩ := (takeExact_eq_some _ _ _ _).mp h1
    have e2 := (expectChar_eq_some _ _ _).mp h2
    obtain ⟨g2, e3, len2, ball2⟩ := (takeExact_eq_some _ _ _ _).mp h3
    have e4 := (expectChar_eq_some _ _ _).mp h4
    obtain ⟨v, e5, hv⟩ := (expectClass_eq_some _ _ _).mp h5
    obtain ⟨g3t, e6, len3, ball3⟩ := (takeExact_eq_some _ _ _ _).mp h6
    have e7 := (expectChar_eq_some _ _ _).mp h7
    obtain ⟨w, e8, hw⟩ := (expectClass_eq_some _ _ _).mp h8
    obtain ⟨g4t, e9, len4, ball4⟩ := (takeExact_eq_some _ _ _ _).mp h9
    have e10 := (expectChar_eq_some _ _ _).mp h10
    obtain ⟨g5, e11, len5, ball5⟩ := (takeExact_eq_some _ _ _ _).mp h11
    subst e1 e2 e3 e4 e5 e6 e7 e8 e9 e10 e11
    refine ⟨g1 ++ '-' :: (g2 ++ '-' :: ((v :: g3t) ++ '-' :: ((w :: g4t) ++ '-' :: g5))),
      by simp [List.append_assoc], g1, g2, v :: g3t, w :: g4t, g5, rfl,
      len1, len2, by simp [len3], by simp [len4], len5, ball1, ball2, ?_, ?_, ball5,
      ⟨v, g3t, rfl, hv⟩, ⟨w, g4t, rfl, hw⟩⟩
    · intro x hx
      rcases List.mem_cons.mp hx with rfl | hx
      · exact versionNibble_hexLower hv
      · exact ball3 x hx
    · intro x hx
      rcases List.mem_cons.mp hx with rfl | hx
      · exact variantNibble_hexLower hw
      · exact ball4 x hx
  · rintro ⟨core, rfl, g1, g2, g3, g4, g5, rfl, len1, len2, len3, len4, len5,
      ball1, ball2, ball3, ball4, ball5, ⟨v, g3t, rfl, hv⟩, ⟨w, g4t, rfl, hw⟩⟩
    have len3' : g3t.length = 3 := by simpa using len3
    have len4' : g4t.length = 3 := by simpa using len4
    have ball3' : ∀ c ∈ g3t, hexLower c = true :=
      fun x hx => ball3 x (List.mem_cons_of_mem _ hx)
    have ball4' : ∀ c ∈ g4t, hexLower c = true :=
      fun x hx => ball4 x (List.mem_cons_of_mem _ hx)
    unfold uuidScan
    simp only [List.append_assoc, List.cons_append]
    rw [takeExact_append_len _ _ _ len1 ball1, Option.some_bind]
    rw [(expectChar_eq_some '-' _ _).mpr rfl, Option.some_bind]
    rw [takeExact_append_len _ _ _ len2 ball2, Option.some_bind]
    rw [(expectChar_eq_some '-' _ _).mpr rfl, Option.some_bind]
    rw [(expectClass_eq_some versionNibble _ _).mpr ⟨v, rfl, hv⟩, Option.some_bind]
    rw [takeExact_append_len _ _ _ len3' ball3', Option.some_bind]
    rw [(expectChar_eq_some '-' _ _).mpr rfl, Option.some_bind]
    rw [(expectClass_eq_some variantNibble _ _).mpr ⟨w, rfl, hw⟩, Option.some_bind]
    rw [takeExact_append_len _ _ _ len4' ball4', Option.some_bind]
    rw [(expectChar_eq_some '-' _ _).mpr rfl, Option.some_bind]
    rw [takeExact_append_len _ _ _ len5 ball5]

/-- C4 (amended): `is_uuid` is true exactly when the lower-cased string form is
the canonical 8-4-4-4-12 hyphenated hexadecimal layout with version nibble 1–5
and variant nibble 8, 9, a, b, followed by nothing — except that a single
trailing newline is tolerated, because the pattern's `$` anchor also matches
just before a final newline; the claim's two examples hold. -/
theorem c4_uuid_layout :
    (∀ s : String, is_uuid s = true ↔
      ∃ core rest, toLowerStr s = core ++ rest ∧ uuidLayout core ∧
        (rest = [] ∨ rest = ['\n'])) ∧
    is_uuid "123e4567-e89b-12d3-a456-426614174000" = true ∧
    is_uuid "123e4567-e89b-62d3-a456-426614174000" = false := by
  refine ⟨?_, by rfl, by rfl⟩
  intro s
  unfold is_uuid
  cases h : uuidScan (toLowerStr s) with
  | none =>
      constructor
      · intro hf
        exact absurd hf (by simp)
      · rintro ⟨core, rest, heq, hlay, -⟩
        have h2 := (uuidScan_eq_some (toLowerStr s) rest).mpr ⟨core, heq, hlay⟩
        rw [h] at h2
        exact absurd h2 (by simp)
  | some rest' =>
      rw [dollarEnd_iff]
      constructor
      · intro hrest
        obtain ⟨core, heq, hlay⟩ := (uuidScan_eq_some _ _).mp h
        exact ⟨core, rest', heq, hlay, hrest⟩
      · rintro ⟨core, rest, heq, hlay, hrest⟩
        have h2 := (uuidScan_eq_some (toLowerStr s) rest).mpr ⟨core, heq, hlay⟩
        have h3 : rest' = rest := by
          have := h.symm.trans h2
          injection this
        rw [h3]
        exact hrest

/-- C4 counterexample to the claim as stated: appending a newline to a valid
UUID still satisfies `is_uuid` (the regex `$` matches before a final newline),
although the string then has a 37th character after the 36-character layout. -/
theorem c4_counterexample :
    is_uuid "123e4567-e89b-12d3-a456-426614174000\n" = true ∧
    ("123e4567-e89b-12d3-a456-426614174000\n").data.length ≠ 36 := by
  constructor
  · rfl
  · decide

lemma isB64_ne_pad {c : Char} (h : isB64 c = true) : ¬(c = '=') := by
  intro he
  subst he
  exact absurd h (by decide)

lemma a2b_cons_alpha {c : Char} {v : ℕ} (hv : b64val c = some v)
    (cs : List Char) (q lc lb pads : ℕ) (acc : List ℕ) :
    a2b (c :: cs) q lc lb pads acc =
      if 8 ≤ lb + 6 then
        a2b cs ((q + 1) % 4) ((lc * 64 + v) % 2 ^ (lb + 6 - 8)) (lb + 6 - 8) pads
          (((lc * 64 + v) / 2 ^ (lb + 6 - 8)) % 256 :: acc)
      else a2b cs ((q + 1) % 4) (lc * 64 + v) (lb + 6) pads acc := by
  have hne : ¬(c = '=') := isB64_ne_pad (by simp [isB64, hv])
  conv_lhs => simp only [a2b]
  rw [if_neg hne, hv]

lemma a2b_alpha (w : List Char) :
    ∀ (t : List Char) (q lc pads : ℕ) (acc : List ℕ), q < 4 →
      (∀ c ∈ w, isB64 c = true) →
      ∃ lc' acc', a2b (w ++ t) q lc (lbOf q) pads acc =
        a2b t ((q + w.length) % 4) lc' (lbOf ((q + w.length) % 4)) pads acc' := by
  induction w with
  | nil =>
      intro t q lc pads acc hq _
      refine ⟨lc, acc, ?_⟩
      have e : (q + ([] : List Char).length) % 4 = q := by
        simpa using Nat.mod_eq_of_lt hq
      rw [e]
      rfl
  | cons c w' ih =>
      intro t q lc pads acc hq hball
      have hc : isB64 c = true := hball c (List.mem_cons_self c w')
      obtain ⟨v, hv⟩ := Option.isSome_iff_exists.mp (by simpa [isB64] using hc)
      have hball' : ∀ x ∈ w', isB64 x = true :=
        fun x hx => hball x (List.mem_cons_of_mem _ hx)
      rw [List.cons_append, a2b_cons_alpha hv]
      interval_cases q
      · rw [if_neg (by norm_num [lbOf])]
        obtain ⟨lc', acc', h⟩ :=
          ih t 1 (lc * 64 + v) pads acc (by norm_num) hball'
        have e : (1 + w'.length) % 4 = (0 + (w'.length + 1)) % 4 := by omega
        rw [e] at h
        exact ⟨lc', acc', h⟩
      · rw [if_pos (by norm_num [lbOf])]
        obtain ⟨lc', acc', h⟩ :=
          ih t 2 ((lc * 64 + v) % 2 ^ (lbOf 1 + 6 - 8)) pads
            (((lc * 64 + v) / 2 ^ (lbOf 1 + 6 - 8)) % 256 :: acc) (by norm_num) hball'
        have e : (2 + w'.length) % 4 = (1 + (w'.length + 1)) % 4 := by omega
        rw [e] at h
        exact ⟨lc', acc', h⟩
      · rw [if_pos (by norm_num [lbOf])]
        obtain ⟨lc', acc', h⟩ :=
          ih t 3 ((lc * 64 + v) % 2 ^ (lbOf 2 + 6 - 8)) pads
            (((lc * 64 + v) / 2 ^ (lbOf 2 + 6 - 8)) % 256 :: acc) (by norm_num) hball'
        have e : (3 + w'.length) % 4 = (2 + (w'.length + 1)) % 4 := by omega
        rw [e] at h
        exact ⟨lc', acc', h⟩
      · rw [if_pos (by norm_num [lbOf])]
        obtain ⟨lc', acc', h⟩ :=
          ih t 0 ((lc * 64 + v) % 2 ^ (lbOf 3 + 6 - 8)) pads
            (((lc * 64 + v) / 2 ^ (lbOf 3 + 6 - 8)) % 256 :: acc) (by norm_num) hball'
        have e : (0 + w'.length) % 4 = (3 + (w'.length + 1)) % 4 := by omega
        rw [e] at h
        exact ⟨lc', acc', h⟩

lemma a2b_ok_of_shape (w p : List Char) (hw : ∀ c ∈ w, isB64 c = true)
    (hp : p = [] ∨ p = ['='] ∨ p = ['=', '='])
    (hlen : (w.length + p.length) % 4 = 0) :
    ∃ bs, a2b (w ++ p) 0 0 0 0 [] = some bs := by
  obtain ⟨lc', acc', hstep⟩ := a2b_alpha w p 0 0 0 [] (by norm_num) hw
  rw [show lbOf 0 = 0 from rfl] at hstep
  rw [hstep]
  rcases hp with rfl | rfl | rfl
  · have h0 : (0 + w.length) % 4 = 0 := by
      simp only [List.length_nil] at hlen
      omega
    rw [h0]
    exact ⟨acc'.reverse, rfl⟩
  · have h3 : (0 + w.length) % 4 = 3 := by
      simp only [List.length_cons, List.length_nil] at hlen
      omega
    rw [h3]
    exact ⟨acc'.reverse, rfl⟩
  · have h2 : (0 + w.length) % 4 = 2 := by
      simp only [List.length_cons, List.length_nil] at hlen
      omega
    rw [h2]
    exact ⟨acc'.reverse, rfl⟩

lemma dropWhile_append_all {p : Char → Bool} (w r : List Char)
    (hw : ∀ c ∈ w, p c = true) : (w ++ r).dropWhile p = r.dropWhile p := by
  induction w with
  | nil => rfl
  | cons c t ih =>
      have hc := hw c (List.mem_cons_self c t)
      rw [List.cons_append, List.dropWhile_cons, if_pos hc]
      exact ih fun x hx => hw x (List.mem_cons_of_mem _ hx)

lemma b64RegexOk_iff (l : List Char) :
    b64RegexOk l = true ↔
      ∃ w p, l = w ++ p ∧ (∀ c ∈ w, isB64 c = true) ∧
        (p = [] ∨ p = ['='] ∨ p = ['=', '=']) := by
  unfold b64RegexOk
  simp only [Bool.or_eq_true, decide_eq_true_eq]
  constructor
  · intro h
    refine ⟨l.takeWhile isB64, l.dropWhile isB64,
      (List.takeWhile_append_dropWhile ..).symm,
      fun c hc => List.mem_takeWhile_imp hc, ?_⟩
    rcases h with (h | h) | h
    · exact Or.inl h
    · exact Or.inr (Or.inl h)
    · exact Or.inr (Or.inr h)
  · rintro ⟨w, p, rfl, hw, hp⟩
    rw [dropWhile_append_all w p hw]
    rcases hp with rfl | rfl | rfl
    · exact Or.inl (Or.inl rfl)
    · exact Or.inl (Or.inr rfl)
    · exact Or.inr rfl

/-- C5 (amended): `is_base64` is true exactly when the string's length is a
multiple of 4 and the string is a run of standard base64 alphabet characters
followed by at most two `=`: invalid characters and misplaced padding yield
false, but non-canonical padding (nonzero unused bits before the `=`) is
accepted; the claim's two examples hold. -/
theorem c5_base64_structure :
    (∀ s : String, is_base64 s = true ↔
      (s.data.length % 4 = 0 ∧ ∃ w p, s.data = w ++ p ∧
        (∀ c ∈ w, isB64 c = true) ∧ (p = [] ∨ p = ['='] ∨ p = ['=', '=']))) ∧
    is_base64 "SGVsbG8=" = true ∧ is_base64 "SGVsbG8" = false := by
  refine ⟨?_, by rfl, by rfl⟩
  intro s
  unfold is_base64 b64decode_validate
  by_cases hlen : s.data.length % 4 = 0
  · rw [if_neg (by omega)]
    by_cases hreg : b64RegexOk s.data = true
    · obtain ⟨w, p, hdec, hw, hp⟩ := (b64RegexOk_iff s.data).mp hreg
      have hl : (w.length + p.length) % 4 = 0 := by
        rw [← List.length_append, ← hdec]
        exact hlen
      obtain ⟨bs, hbs⟩ := a2b_ok_of_shape w p hw hp hl
      have hbs2 : a2b s.data 0 0 0 0 [] = some bs := by
        rw [hdec]
        exact hbs
      rw [if_pos hreg, hbs2]
      show true = true ↔ _
      simp only [true_iff]
      exact ⟨hlen, w, p, hdec, hw, hp⟩
    · rw [if_neg hreg]
      show false = true ↔ _
      constructor
      · intro hf
        exact absurd hf (by decide)
      · rintro ⟨-, w, p, hdec, hw, hp⟩
        exact absurd ((b64RegexOk_iff s.data).mpr ⟨w, p, hdec, hw, hp⟩) hreg
  · rw [if_pos hlen]
    constructor
    · intro hf
      exact absurd hf (by simp)
    · rintro ⟨h0, -⟩
      exact absurd h0 hlen

/-- C5 counterexample to the claim as stated: `"AB=="` is accepted by
`is_base64` although its padding is non-canonical — the last data character `B`
carries value 1, whose four unused bits are not zero, so the string is not
strictly valid standard Base64. -/
theorem c5_counterexample :
    is_base64 "AB==" = true ∧ b64Canonical "AB==".data = false := by
  constructor
  · rfl
  · rfl

lemma pyTruthy_pyAnd (a b : PyRes) : pyTruthy (pyAnd a b) = (pyTruthy a && pyTruthy b) := by
  unfold pyAnd
  by_cases h : pyTruthy a = true <;> simp [h]

lemma pyTruthy_reSearchClass (p : Char → Bool) (l : List Char) :
    pyTruthy (reSearchClass p l) = l.any p := by
  unfold reSearchClass
  rw [← List.findIdx?_isSome]
  cases h : l.findIdx? p <;> simp [pyTruthy, h]

/-- C6 (amended): for every minimum length `n` and every value whose string
form is ASCII, `is_strong_password` returns a result that is truthy exactly
when the string form has length at least `n` and contains at least one
uppercase letter, one lowercase letter, one digit, and one symbol from the
fixed set; the result itself is not in general a boolean (see the
counterexample) — it is the boolean `False` only when the length test fails,
and otherwise `None` or a match object. -/
theorem c6_strength_condition (s : String) (n : ℤ) (_h : asciiStr s = true) :
    pyTruthy (is_strong_password s n) = strongSpec s n := by
  unfold is_strong_password strongSpec
  rw [pyTruthy_pyAnd, pyTruthy_pyAnd, pyTruthy_pyAnd, pyTruthy_pyAnd,
    pyTruthy_reSearchClass, pyTruthy_reSearchClass, pyTruthy_reSearchClass,
    pyTruthy_reSearchClass]
  rfl

/-- C6 counterexample to the claim as stated: on `"Aa1!Aa1!"` (which meets every
strength criterion, so the claim requires the boolean true) `is_strong_password`
returns the match object of the final `re.search` — a truthy value, but not a
boolean. -/
theorem c6_counterexample :
    isBoolRes (is_strong_password "Aa1!Aa1!" 8) = false ∧
    pyTruthy (is_strong_password "Aa1!Aa1!" 8) = true := by
  constructor
  · rfl
  · rfl

/-- Witness for C6 at a concrete input. -/
theorem c6_strength_condition_witness :
    asciiStr "Aa1!Aa1!" = true ∧
    pyTruthy (is_strong_password "Aa1!Aa1!" 8) = strongSpec "Aa1!Aa1!" 8 :=
  ⟨by rfl, c6_strength_condition "Aa1!Aa1!" 8 (by rfl)⟩

lemma exOk_tryFalse (x : Except PyErr Bool) : exOk (tryFalse x) = true := by
  cases x <;> rfl

/-- C1 (amended): with contract-conforming parameters, the format predicates
other than `is_credit_card` return a result for every value (their internal
`try/except` turns every parse or library error into a false result, and the
regex-based ones perform no fallible operation at all); `is_credit_card`
likewise returns a result on every value whose string form is ASCII, but can
propagate a `ValueError` on digit-like non-decimal input (see the
counterexample); and `in_range` is allowed to propagate a `TypeError`,
exhibited here on incomparable operands. -/
theorem c1_error_containment :
    (∀ s : String,
      exOk (is_email_checked s) = true ∧ exOk (is_url_checked s) = true ∧
      exOk (is_ipv4_checked s) = true ∧ exOk (is_ipv6_checked s) = true ∧
      exOk (is_ip_checked s) = true ∧ exOk (is_phone_checked s) = true ∧
      exOk (is_date_checked s) = true ∧
      (∀ n : ℤ, exOk (is_strong_password_checked s n) = true) ∧
      exOk (is_uuid_checked s) = true ∧ exOk (is_json_checked s) = true ∧
      exOk (is_base64_checked s) = true ∧ exOk (is_hex_color_checked s) = true ∧
      (∀ exts : List String, exOk (has_extension_checked s exts) = true)) ∧
    (∀ s : String, asciiStr s = true → exOk (is_credit_card_checked s) = true) ∧
    in_range (.str "a") (.int 0) (.int 2) = .error .typeError := by
  refine ⟨?_, ?_, ?_⟩
  · intro s
    exact ⟨rfl, exOk_tryFalse _, exOk_tryFalse _, exOk_tryFalse _, rfl, rfl,
      exOk_tryFalse _, fun n => rfl, rfl, exOk_tryFalse _, exOk_tryFalse _, rfl,
      fun exts => rfl⟩
  · intro s hs
    rw [credit_ascii s hs]
    rfl
  · unfold in_range
    rw [show pyLe (.int 0) (.str "a") = .error .typeError from by rw [pyLe.eq_def]]
    rfl

/-- C1 counterexample to the claim as stated: the format predicate
`is_credit_card` does raise — on thirteen superscript-two characters the
cleaned string passes `str.isdigit` and the length bound, and then `int(d)`
inside the Luhn loop raises a `ValueError` that no handler catches. -/
theorem c1_counterexample :
    is_credit_card_checked "²²²²²²²²²²²²²" = .error .valueError := by rfl

/-- Witness for C1 at a concrete input. -/
theorem c1_error_containment_witness :
    asciiStr "4111111111111111" = true ∧
    exOk (is_credit_card_checked "4111111111111111") = true :=
  ⟨by rfl, c1_error_containment.2.1 "4111111111111111" (by rfl)⟩

end Validator
